import Mathlib

set_option autoImplicit false

/-!
Verification of the DanhMuc price snapshot pipeline
(src/DanhMuc_GHPages/fetch_prices.py).

The Python script is embedded shallowly. Every external effect — the
process environment, the Supabase portfolios query, the vnstock provider
calls and the snapshot file on disk — is a parameter of the embedding,
and every Python dict is an association list with Python dict assignment
semantics (overwrite in place, append new keys). Code that can raise is
modelled with Except; a caught exception is a consumed Except.error.
Prices are rationals: the script only multiplies provider floats by 1000.
-/

abbrev Ticker := String

/-- Model of the Python method str.upper on one character: it maps the
ASCII letters a-z to A-Z and leaves every other character unchanged
(ticker symbols in this pipeline are ASCII). -/
def upperChar (c : Char) : Char :=
  if 97 ≤ c.toNat ∧ c.toNat ≤ 122 then Char.ofNat (c.toNat - 32) else c

/-- Model of the Python method str.upper, used at line 43 of
fetch_prices.py as row["ma_cp"].upper(). -/
def pyUpper (s : String) : String := ⟨s.data.map upperChar⟩

/-- Python truthiness of an optional string (an environment variable read
with os.environ.get, or a dict field read with row.get): None and the
empty string are falsy, every other string is truthy. -/
def pyTruthy : Option String → Bool
  | none => false
  | some s => s ≠ ""

/-- Python dict assignment d[k] = v on an association list: when the key
is already present its entry is overwritten in place, otherwise the new
pair is appended at the end. -/
def dictInsert {α : Type} (k : Ticker) (v : α) (d : List (Ticker × α)) : List (Ticker × α) :=
  if d.any (fun p => p.1 = k) then d.map (fun p => if p.1 = k then (k, v) else p)
  else d ++ [(k, v)]

/-- Python dict lookup d[k]; the membership test (k in d) is isSome of it. -/
def dictLookup {α : Type} : List (Ticker × α) → Ticker → Option α
  | [], _ => none
  | p :: ps, k => if p.1 = k then some p.2 else dictLookup ps k

/-- Python dict(zip(keys, values)) as used at line 59 of fetch_prices.py:
a dict built from the pairs left to right. -/
def dictOfPairs (rows : List (Ticker × String)) : List (Ticker × String) :=
  rows.foldl (fun d r => dictInsert r.1 r.2 d) []

/-- Python set.add on an insertion-ordered list model of a set
(symbols_set.add at line 43 of fetch_prices.py). -/
def setAdd (acc : List String) (x : String) : List String :=
  if x ∈ acc then acc else acc ++ [x]

/-- Outcome of the Supabase read at line 37 of fetch_prices.py
(supabase.table("portfolios").select("ma_cp").execute()), including the
client construction at line 35. Each row is represented by its "ma_cp"
field: none models an absent or null field, some s a string value. -/
inductive QueryOutcome where
  | rows (data : List (Option String))
  | raises (msg : String)
deriving DecidableEq

/-- Console log lines of load_stock_list that the spec cares about: the
missing-credentials warning at line 26 and the query error report at
line 48 of fetch_prices.py. -/
inductive LogEvent where
  | warnNoCreds
  | errorQuery (msg : String)
deriving DecidableEq

/-- External state read by load_stock_list: the SUPABASE_URL and
SUPABASE_ANON_KEY environment variables (lines 20 to 21), the optional
stocks.json fallback file (modelled by its parsed symbols field, the
value of json.load(f).get("symbols", []) at line 31; none when the file
does not exist), and the Supabase query outcome. -/
structure SourceEnv where
  supabaseUrl : Option String
  supabaseKey : Option String
  stocksFile : Option (List Ticker)
  query : QueryOutcome

/-- Lines 40 to 46 of fetch_prices.py: walk the rows, skip rows whose
ma_cp field is absent, null or empty (Python truthiness of
row.get("ma_cp")), uppercase the value and add it to a set; return the
set as a list. -/
def extractStep (acc : List String) (row : Option String) : List String :=
  match row with
  | some s => if s = "" then acc else setAdd acc (pyUpper s)
  | none => acc

def extractTickers (data : List (Option String)) : List Ticker :=
  data.foldl extractStep []

/-- load_stock_list (lines 23 to 49 of fetch_prices.py). When either
credential is falsy it warns and falls back to the stocks.json file
(lines 25 to 32); otherwise it queries Supabase, extracting the unique
uppercased symbols (lines 34 to 46); any query exception is caught,
logged, and turned into an empty list (lines 47 to 49). The second
component is the log. -/
def load_stock_list (env : SourceEnv) : List Ticker × List LogEvent :=
  if !(pyTruthy env.supabaseUrl) || !(pyTruthy env.supabaseKey) then
    match env.stocksFile with
    | some syms => (syms, [LogEvent.warnNoCreds])
    | none => ([], [LogEvent.warnNoCreds])
  else
    match env.query with
    | QueryOutcome.rows data => (extractTickers data, [])
    | QueryOutcome.raises msg => ([], [LogEvent.errorQuery msg])

/-- Outcome of ls.symbols_by_industries() at line 57 of fetch_prices.py:
the call may raise, return None, or return a table of
(symbol, industry_name) rows. -/
inductive ListingOutcome where
  | raises (msg : String)
  | noneDf
  | table (rows : List (Ticker × String))
deriving DecidableEq

/-- fetch_industry_map (lines 53 to 62 of fetch_prices.py): on a
non-empty table return dict(zip(df.symbol, df.industry_name)); on an
exception, a None result or an empty table return the empty dict. -/
def fetch_industry_map : ListingOutcome → List (Ticker × String)
  | ListingOutcome.raises _ => []
  | ListingOutcome.noneDf => []
  | ListingOutcome.table rows => if rows.isEmpty then [] else dictOfPairs rows

/-- Outcome of Quote(symbol=..., source=VCI).history(length="1M",
interval="1D") for one symbol (lines 68 to 69 of fetch_prices.py): the
provider call may raise, return None, or return a table of daily bars
represented by the close column, most recent last. -/
inductive HistoryOutcome where
  | raises (msg : String)
  | noneDf
  | table (closes : List ℚ)
deriving DecidableEq

/-- The try block of fetch_price (lines 67 to 72 of fetch_prices.py):
Except.error models an escaping exception, ok none a fall-through
(None or empty table), ok (some r) the early return with the most recent
close scaled by 1000. -/
def fetchPriceTry (symbol : Ticker) (outcome : HistoryOutcome) :
    Except String (Option (Ticker × Option ℚ)) :=
  match outcome with
  | HistoryOutcome.raises msg => Except.error msg
  | HistoryOutcome.noneDf => Except.ok none
  | HistoryOutcome.table closes =>
    match closes.getLast? with
    | some raw => Except.ok (some (symbol, some (raw * 1000)))
    | none => Except.ok none

/-- fetch_price (lines 65 to 75 of fetch_prices.py). The except clause
at lines 73 to 74 catches every exception of the try block, so an error
of the body becomes the final return (symbol, None) at line 75; an
Except.error result here would mean an exception reached the caller. -/
def fetch_price (symbol : Ticker) (outcome : HistoryOutcome) :
    Except String (Ticker × Option ℚ) :=
  match fetchPriceTry symbol outcome with
  | Except.ok (some result) => Except.ok result
  | Except.ok none => Except.ok (symbol, none)
  | Except.error _ => Except.ok (symbol, none)

/-- The price component of fetch_price as consumed by main at line 119
(sym_result, price = fetch_price(sym)). -/
def fetchPriceVal (symbol : Ticker) (outcome : HistoryOutcome) : Option ℚ :=
  match fetch_price symbol outcome with
  | Except.ok r => r.2
  | Except.error _ => none

/-- One iteration of the two merge loops of main (industries at lines
106 to 110, prices at lines 119 to 128 of fetch_prices.py): take the
fresh value when there is one, else carry the old value forward, else
leave the dict unchanged. -/
def mergeStep {α : Type} (fresh old : Ticker → Option α) (d : List (Ticker × α))
    (sym : Ticker) : List (Ticker × α) :=
  match fresh sym with
  | some v => dictInsert sym v d
  | none =>
    match old sym with
    | some v => dictInsert sym v d
    | none => d

/-- The merge of fresh results with the previous snapshot over the
current symbol list, starting from the empty dict, as both merge loops
of main do. -/
def mergeDict {α : Type} (symbols : List Ticker) (fresh old : Ticker → Option α) :
    List (Ticker × α) :=
  symbols.foldl (mergeStep fresh old) []

/-- State threaded through the sequential fetch loop of main (lines 115
to 132 of fetch_prices.py): the prices dict, the success counter, the
symbols passed to fetch_price in order, and the number of
time.sleep(1) pacing delays performed. -/
structure DriverState where
  prices : List (Ticker × ℚ)
  success : Nat
  fetchLog : List Ticker
  sleeps : Nat
deriving DecidableEq

/-- One iteration of the fetch loop of main (lines 117 to 132 of
fetch_prices.py) at enumerate index p.1 with symbol p.2: call
fetch_price, merge the result into prices, count a success when a fresh
price arrived, and sleep when i < len(symbols) - 1. -/
def seqStep (n : Nat) (fetch old : Ticker → Option ℚ) (st : DriverState)
    (p : Nat × Ticker) : DriverState :=
  { prices := mergeStep fetch old st.prices p.2
    success := st.success + (if (fetch p.2).isSome then 1 else 0)
    fetchLog := st.fetchLog ++ [p.2]
    sleeps := st.sleeps + (if p.1 < n - 1 then 1 else 0) }

/-- The sequential driver loop of main (for i, sym in enumerate(symbols)
at line 117 of fetch_prices.py), starting from the empty dict and zero
counters. -/
def runSeq (symbols : List Ticker) (fetch old : Ticker → Option ℚ) : DriverState :=
  symbols.enum.foldl (seqStep symbols.length fetch old) ⟨[], 0, [], 0⟩

/-- The previous snapshot as main uses it: the prices and industries
mappings taken from the parsed JSON with old_data.get("prices", {}) and
old_data.get("industries", {}) at lines 96 to 97 of fetch_prices.py. -/
structure SnapshotDoc where
  prices : Ticker → Option ℚ
  industries : Ticker → Option String

/-- The empty previous snapshot: no prices and no industries. -/
def emptySnapshot : SnapshotDoc :=
  { prices := fun _ => none, industries := fun _ => none }

/-- State of the prices.json file at run start: absent
(os.path.exists false at line 92), present but not parseable as the
expected JSON document (json.load raises at line 95), or present and
valid. -/
inductive SnapshotFile where
  | missing
  | malformed
  | valid (doc : SnapshotDoc)

/-- Lines 90 to 99 of fetch_prices.py: old_prices and old_industries
start empty, are filled from the file when it exists and parses, and the
except clause at lines 98 to 99 swallows any parse error, leaving them
empty. -/
def readOldSnapshot : SnapshotFile → SnapshotDoc
  | SnapshotFile.missing => emptySnapshot
  | SnapshotFile.malformed => emptySnapshot
  | SnapshotFile.valid doc => doc

/-- The output document built at lines 137 to 142 of fetch_prices.py:
updated_at, total_symbols, prices and industries. -/
structure Output where
  updated_at : String
  total_symbols : Nat
  prices : List (Ticker × ℚ)
  industries : List (Ticker × String)
deriving DecidableEq

/-- Result of one run of main: the process exit status, the document
written over prices.json (none when the run aborted before writing), and
the symbols that received a driver-level fetch_price call. -/
structure RunResult where
  exitCode : Nat
  written : Option Output
  fetchLog : List Ticker
deriving DecidableEq

/-- All external state read by one run of main: the load_stock_list
environment, the prices.json file state, the industry listing outcome,
the per-symbol provider behaviour, and the formatted timestamp
datetime.now(VN_TZ).strftime(...) of line 138. -/
structure RunEnv where
  source : SourceEnv
  snapshotFile : SnapshotFile
  listing : ListingOutcome
  provider : Ticker → HistoryOutcome
  now : String

/-- main (lines 78 to 147 of fetch_prices.py): load the symbol list and
exit with status 1 when it is empty (lines 82 to 85), read the old
snapshot (lines 90 to 99), merge industries (lines 103 to 110), run the
sequential fetch loop (lines 115 to 132), and write the output document
(lines 136 to 145). -/
def mainRun (env : RunEnv) : RunResult :=
  let symbols := (load_stock_list env.source).1
  if symbols.isEmpty then
    { exitCode := 1, written := none, fetchLog := [] }
  else
    let old := readOldSnapshot env.snapshotFile
    let all_industries := fetch_industry_map env.listing
    let industries := mergeDict symbols (fun s => dictLookup all_industries s) old.industries
    let dr := runSeq symbols (fun s => fetchPriceVal s (env.provider s)) old.prices
    let output : Output :=
      { updated_at := env.now
        total_symbols := dr.prices.length
        prices := dr.prices
        industries := industries }
    { exitCode := 0, written := some output, fetchLog := dr.fetchLog }

/-- Does the pattern match at the head of the character list? Helper for
the substring test below. -/
def leadMatch : List Char → List Char → Bool
  | [], _ => true
  | _ :: _, [] => false
  | p :: ps, c :: cs => p == c && leadMatch ps cs

/-- Does the pattern occur anywhere in the character list? -/
def subMatch : List Char → List Char → Bool
  | _, [] => true
  | [], _ :: _ => false
  | c :: cs, pat => leadMatch pat (c :: cs) || subMatch cs pat

/-- The Python substring test (pat in msg) on strings. -/
def containsSub (msg pat : String) : Bool := subMatch msg.data pat.data

/-- Modelled from the spec: the rate-limit classifier of the
sequential-with-retry Price Fetcher variant, which is not under src/.
Per the spec it matches known substrings for "rate limit", an HTTP 429
indicator, or a localized "exceeded limit" phrase in the error
message. -/
def isRateLimitError (msg : String) : Bool :=
  containsSub msg "rate limit" || containsSub msg "429" || containsSub msg "exceeded limit"

/-- Modelled from the spec: the bounded retry loop of the
sequential-with-retry Price Fetcher variant, which is not under src/.
One attempt is made; on a rate-limit error the fetcher sleeps one
cooldown interval and retries while retries remain, and any other error
or exhausted retries report failure. The result pairs the fetched price
(none on failure) with the number of cooldown sleeps performed. -/
def fetchWithRetry (provider : Nat → Except String ℚ) :
    Nat → Nat → Option ℚ × Nat
  | retriesLeft, attempt =>
    match provider attempt with
    | Except.ok price => (some price, 0)
    | Except.error msg =>
      if isRateLimitError msg then
        match retriesLeft with
        | 0 => (none, 0)
        | r + 1 =>
          let rest := fetchWithRetry provider r (attempt + 1)
          (rest.1, rest.2 + 1)
      else (none, 0)

/-- The provider stub of the spec scenario: it reports the given error
message on the first limitHits attempts and then succeeds with the given
price. -/
def rateLimitStub (msg : String) (limitHits : Nat) (price : ℚ) (attempt : Nat) :
    Except String ℚ :=
  if attempt < limitHits then Except.error msg else Except.ok price

/-- Concrete run environment for exercising the empty-symbol-set abort:
no credentials and no fallback file. -/
def c3Env : RunEnv :=
  { source :=
      { supabaseUrl := none
        supabaseKey := some "anon"
        stocksFile := none
        query := QueryOutcome.rows [] }
    snapshotFile := SnapshotFile.missing
    listing := ListingOutcome.noneDf
    provider := fun _ => HistoryOutcome.noneDf
    now := "2026-01-01T00:00:00+07:00" }

/-- Concrete fetch outcome function for exercising the sequential driver. -/
def c6Fetch : Ticker → Option ℚ := fun s => if s = "AAA" then some 1000 else none

/-- Concrete source environment with absent credentials and a fallback
file present. -/
def c7EnvA : SourceEnv :=
  { supabaseUrl := none
    supabaseKey := some "anon"
    stocksFile := some ["FPT", "VNM"]
    query := QueryOutcome.rows [] }

/-- Concrete source environment with credentials present and a raising
query. -/
def c7EnvB : SourceEnv :=
  { supabaseUrl := some "https://example.supabase.co"
    supabaseKey := some "anon"
    stocksFile := some ["FPT"]
    query := QueryOutcome.raises "connection refused" }

/-- Concrete run environment in which one of two symbols has a price
carried forward and the other has none, so the written prices dict is
smaller than the symbol set. -/
def c9Env : RunEnv :=
  { source :=
      { supabaseUrl := some "https://example.supabase.co"
        supabaseKey := some "anon"
        stocksFile := none
        query := QueryOutcome.rows [some "aaa", some "bbb"] }
    snapshotFile := SnapshotFile.valid
      { prices := fun s => if s = "AAA" then some 10000 else none
        industries := fun _ => none }
    listing := ListingOutcome.raises "listing unavailable"
    provider := fun _ => HistoryOutcome.raises "read timeout"
    now := "2026-01-01T00:00:00+07:00" }

/-- The document the c9Env run writes. -/
def c9Out : Output :=
  { updated_at := "2026-01-01T00:00:00+07:00"
    total_symbols := 1
    prices := [("AAA", (10000 : ℚ))]
    industries := [] }

/-- Concrete source environment whose query rows contain a duplicate, a
null field, an empty string and mixed case values. -/
def c10Env : SourceEnv :=
  { supabaseUrl := some "https://example.supabase.co"
    supabaseKey := some "anon"
    stocksFile := none
    query := QueryOutcome.rows [some "fpt", none, some "", some "FPT", some "vnm"] }

/-- A valid scalar value round-trips through Char.ofNat. -/
theorem toNat_ofNat_valid (n : Nat) (h : n.isValidChar) : (Char.ofNat n).toNat = n := by
  simp [Char.ofNat, dif_pos h, Char.ofNatAux, Char.toNat, UInt32.toNat]

/-- Uppercasing a character twice is the same as uppercasing it once. -/
theorem upperChar_idem (c : Char) : upperChar (upperChar c) = upperChar c := by
  by_cases h : 97 ≤ c.toNat ∧ c.toNat ≤ 122
  · have hv : (Char.ofNat (c.toNat - 32)).toNat = c.toNat - 32 := by
      apply toNat_ofNat_valid
      exact Or.inl (by omega)
    simp only [upperChar, if_pos h]
    rw [if_neg (by rw [hv]; omega)]
  · simp only [upperChar, if_neg h]

/-- Uppercasing a string twice is the same as uppercasing it once. -/
theorem pyUpper_pyUpper (s : String) : pyUpper (pyUpper s) = pyUpper s := by
  apply String.ext
  show (s.data.map upperChar).map upperChar = s.data.map upperChar
  rw [List.map_map]
  exact List.map_congr_left (fun c _ => upperChar_idem c)

/-- Uppercasing does not turn a non-empty string into the empty string. -/
theorem pyUpper_ne_empty {s : String} (h : s ≠ "") : pyUpper s ≠ "" := by
  intro hc
  apply h
  have hdata : s.data.map upperChar = [] := congrArg String.data hc
  exact String.ext (List.map_eq_nil_iff.mp hdata)

/-- Looking up a key after a Python dict assignment: the assigned key has
the new value, every other key is unchanged. -/
theorem dictLookup_map_ne {α : Type} (k q : Ticker) (v : α) (h : q ≠ k)
    (d : List (Ticker × α)) :
    dictLookup (d.map (fun p => if p.1 = k then (k, v) else p)) q = dictLookup d q := by
  induction d with
  | nil => rfl
  | cons p ps ih =>
    by_cases hp : p.1 = k
    · simp [dictLookup, hp, Ne.symm h, ih]
    · simp only [List.map_cons, if_neg hp, dictLookup, ih]

theorem dictLookup_map_self {α : Type} (k : Ticker) (v : α) (d : List (Ticker × α))
    (h : d.any (fun p => p.1 = k) = true) :
    dictLookup (d.map (fun p => if p.1 = k then (k, v) else p)) k = some v := by
  induction d with
  | nil => simp at h
  | cons p ps ih =>
    by_cases hp : p.1 = k
    · simp [dictLookup, hp]
    · rw [List.any_cons, decide_eq_false hp, Bool.false_or] at h
      simp only [List.map_cons, if_neg hp, dictLookup, ih h]

theorem dictLookup_none_of_not_mem {α : Type} (k : Ticker) (d : List (Ticker × α))
    (h : d.any (fun p => p.1 = k) = false) :
    dictLookup d k = none := by
  induction d with
  | nil => rfl
  | cons p ps ih =>
    simp only [List.any_cons, Bool.or_eq_false_iff, decide_eq_false_iff_not] at h
    simp only [dictLookup, if_neg h.1, ih (by simpa using h.2)]

theorem dictLookup_append {α : Type} (k : Ticker) (d e : List (Ticker × α)) :
    dictLookup (d ++ e) k = (dictLookup d k).orElse fun _ => dictLookup e k := by
  induction d with
  | nil => simp [dictLookup, Option.orElse]
  | cons p ps ih =>
    by_cases hp : p.1 = k <;> simp [dictLookup, hp, ih, Option.orElse]

/-- The characteristic property of Python dict assignment. -/
theorem dictLookup_dictInsert {α : Type} (k q : Ticker) (v : α) (d : List (Ticker × α)) :
    dictLookup (dictInsert k v d) q = if q = k then some v else dictLookup d q := by
  unfold dictInsert
  by_cases hany : d.any (fun p => p.1 = k) = true
  · rw [if_pos hany]
    by_cases hk : q = k
    · subst hk; rw [if_pos rfl, dictLookup_map_self _ v d hany]
    · rw [if_neg hk, dictLookup_map_ne k q v hk d]
  · rw [if_neg hany, dictLookup_append]
    by_cases hk : q = k
    · subst hk
      rw [dictLookup_none_of_not_mem _ d (by rwa [Bool.not_eq_true] at hany)]
      simp [dictLookup, Option.orElse]
    · rw [if_neg hk]
      have hsing : dictLookup [(k, v)] q = none := by simp [dictLookup, Ne.symm hk]
      rw [hsing]
      cases dictLookup d q <;> simp [Option.orElse]

/-- Python dict assignment only ever appends a key that is absent. -/
theorem keys_dictInsert {α : Type} (k : Ticker) (v : α) (d : List (Ticker × α)) :
    (dictInsert k v d).map Prod.fst =
      if d.any (fun p => p.1 = k) then d.map Prod.fst else d.map Prod.fst ++ [k] := by
  unfold dictInsert
  by_cases hany : d.any (fun p => p.1 = k) = true
  · rw [if_pos hany, if_pos hany, List.map_map]
    congr 1
    funext p
    by_cases hp : p.1 = k <;> simp [Function.comp, hp]
  · rw [if_neg hany, if_neg hany]
    simp

/-- Python dict assignment keeps the keys distinct. -/
theorem keys_nodup_dictInsert {α : Type} (k : Ticker) (v : α) (d : List (Ticker × α))
    (h : (d.map Prod.fst).Nodup) : ((dictInsert k v d).map Prod.fst).Nodup := by
  rw [keys_dictInsert]
  by_cases hany : d.any (fun p => p.1 = k) = true
  · rwa [if_pos hany]
  · rw [if_neg hany]
    rw [List.nodup_append]
    refine ⟨h, List.nodup_singleton k, ?_⟩
    intro a ha hb
    simp only [List.mem_singleton] at hb
    subst hb
    simp only [List.mem_map] at ha
    obtain ⟨p, hp, rfl⟩ := ha
    simp only [List.any_eq_true, decide_eq_true_eq] at hany
    exact hany ⟨p, hp, rfl⟩

/-- Membership after Python set.add. -/
theorem mem_setAdd (acc : List String) (x s : String) :
    s ∈ setAdd acc x ↔ s ∈ acc ∨ s = x := by
  unfold setAdd
  by_cases hx : x ∈ acc
  · rw [if_pos hx]
    constructor
    · exact Or.inl
    · rintro (h | rfl)
      · exact h
      · exact hx
  · rw [if_neg hx]
    simp

/-- Python set.add keeps the element list duplicate-free. -/
theorem nodup_setAdd (acc : List String) (x : String) (h : acc.Nodup) :
    (setAdd acc x).Nodup := by
  unfold setAdd
  by_cases hx : x ∈ acc
  · rwa [if_pos hx]
  · rw [if_neg hx]
    rw [List.nodup_append]
    exact ⟨h, List.nodup_singleton x, by simpa [List.disjoint_singleton] using hx⟩

/-- Membership in the symbol extraction fold of load_stock_list: a string
appears exactly when some row carries a truthy ma_cp field whose
uppercasing is that string. -/
theorem mem_extract_foldl (data : List (Option String)) :
    ∀ (acc : List String) (s : String),
      s ∈ data.foldl extractStep acc ↔
        s ∈ acc ∨ ∃ r, some r ∈ data ∧ r ≠ "" ∧ s = pyUpper r := by
  induction data with
  | nil => intro acc s; simp
  | cons row rest ih =>
    intro acc s
    rw [List.foldl_cons, ih]
    cases row with
    | none => simp [extractStep]
    | some v =>
      by_cases hv : v = ""
      · subst hv
        simp only [extractStep, if_pos rfl, List.mem_cons, Option.some.injEq]
        constructor
        · rintro (h | ⟨r, hr, hne, hs⟩)
          · exact Or.inl h
          · exact Or.inr ⟨r, Or.inr hr, hne, hs⟩
        · rintro (h | ⟨r, hr | hr, hne, hs⟩)
          · exact Or.inl h
          · exact absurd hr hne
          · exact Or.inr ⟨r, hr, hne, hs⟩
      · simp only [extractStep, if_neg hv, mem_setAdd, List.mem_cons, Option.some.injEq]
        constructor
        · rintro ((h | rfl) | ⟨r, hr, hne, hs⟩)
          · exact Or.inl h
          · exact Or.inr ⟨v, Or.inl rfl, hv, rfl⟩
          · exact Or.inr ⟨r, Or.inr hr, hne, hs⟩
        · rintro (h | ⟨r, hr | hr, hne, hs⟩)
          · exact Or.inl (Or.inl h)
          · exact Or.inl (Or.inr (by rw [hs, hr]))
          · exact Or.inr ⟨r, hr, hne, hs⟩

theorem mem_extractTickers (data : List (Option String)) (s : String) :
    s ∈ extractTickers data ↔ ∃ r, some r ∈ data ∧ r ≠ "" ∧ s = pyUpper r := by
  unfold extractTickers
  rw [mem_extract_foldl]
  simp

theorem nodup_extract_foldl (data : List (Option String)) :
    ∀ acc : List String, acc.Nodup → (data.foldl extractStep acc).Nodup := by
  induction data with
  | nil => intro acc h; exact h
  | cons row rest ih =>
    intro acc h
    rw [List.foldl_cons]
    apply ih
    cases row with
    | none => exact h
    | some v =>
      by_cases hv : v = ""
      · simpa [extractStep, hv] using h
      · simpa [extractStep, hv] using nodup_setAdd acc (pyUpper v) h

theorem nodup_extractTickers (data : List (Option String)) :
    (extractTickers data).Nodup :=
  nodup_extract_foldl data [] List.nodup_nil

/-- Looking up a symbol after folding the merge step over a symbol list:
a visited symbol whose fresh-else-old value exists gets that value, and
every other symbol keeps whatever the starting dict said. -/
theorem foldl_mergeStep_lookup {α : Type} (f o : Ticker → Option α) (l : List Ticker) :
    ∀ (d : List (Ticker × α)) (sym : Ticker),
      dictLookup (l.foldl (mergeStep f o) d) sym =
        if sym ∈ l ∧ ((f sym).orElse fun _ => o sym).isSome = true
        then (f sym).orElse fun _ => o sym
        else dictLookup d sym := by
  induction l with
  | nil => intro d sym; simp
  | cons a l ih =>
    intro d sym
    rw [List.foldl_cons, ih]
    by_cases hmem : sym ∈ l ∧ ((f sym).orElse fun _ => o sym).isSome = true
    · rw [if_pos hmem, if_pos ⟨List.mem_cons_of_mem a hmem.1, hmem.2⟩]
    · rw [if_neg hmem]
      by_cases ha : sym = a
      · subst ha
        cases hf : f sym with
        | some v =>
          rw [if_pos ⟨List.mem_cons_self sym l, by simp [hf, Option.orElse]⟩]
          simp [mergeStep, hf, dictLookup_dictInsert, Option.orElse]
        | none =>
          cases ho : o sym with
          | some v =>
            rw [if_pos ⟨List.mem_cons_self sym l, by simp [hf, ho, Option.orElse]⟩]
            simp [mergeStep, hf, ho, dictLookup_dictInsert, Option.orElse]
          | none =>
            rw [if_neg (by simp [hf, ho, Option.orElse])]
            simp [mergeStep, hf, ho]
      · have hstep : dictLookup (mergeStep f o d a) sym = dictLookup d sym := by
          unfold mergeStep
          cases f a with
          | some v => simp [dictLookup_dictInsert, ha]
          | none =>
            cases o a with
            | some v => simp [dictLookup_dictInsert, ha]
            | none => rfl
        rw [hstep, if_neg]
        rintro ⟨hm, hP⟩
        rcases List.mem_cons.mp hm with h | h
        · exact ha h
        · exact hmem ⟨h, hP⟩

/-- The merge of fresh and old values over a symbol list assigns, to each
listed symbol, the fresh value when present else the old value, and
assigns nothing to any other symbol. -/
theorem mergeDict_lookup {α : Type} (symbols : List Ticker) (f o : Ticker → Option α)
    (sym : Ticker) :
    dictLookup (mergeDict symbols f o) sym =
      if sym ∈ symbols then (f sym).orElse (fun _ => o sym) else none := by
  unfold mergeDict
  rw [foldl_mergeStep_lookup]
  by_cases hmem : sym ∈ symbols
  · by_cases hP : ((f sym).orElse fun _ => o sym).isSome = true
    · rw [if_pos ⟨hmem, hP⟩, if_pos hmem]
    · rw [if_neg (fun h => hP h.2), if_pos hmem]
      cases hOE : (f sym).orElse (fun _ => o sym) with
      | some v => exact absurd (by simp [hOE]) hP
      | none => rfl
  · rw [if_neg (fun h => hmem h.1), if_neg hmem]
    rfl

/-- Folding the merge step never duplicates a key. -/
theorem foldl_mergeStep_keys_nodup {α : Type} (f o : Ticker → Option α) (l : List Ticker) :
    ∀ d : List (Ticker × α), ((d.map Prod.fst).Nodup) →
      (((l.foldl (mergeStep f o) d)).map Prod.fst).Nodup := by
  induction l with
  | nil => intro d h; exact h
  | cons a l ih =>
    intro d h
    rw [List.foldl_cons]
    apply ih
    unfold mergeStep
    cases f a with
    | some v => exact keys_nodup_dictInsert a v d h
    | none =>
      cases o a with
      | some v => exact keys_nodup_dictInsert a v d h
      | none => exact h

theorem mergeDict_keys_nodup {α : Type} (symbols : List Ticker) (f o : Ticker → Option α) :
    ((mergeDict symbols f o).map Prod.fst).Nodup :=
  foldl_mergeStep_keys_nodup f o symbols [] (by simp)

/-- Closed form of the sequential fetch loop from any enumerate index and
any starting state. -/
theorem seqFoldl_eq (n : Nat) (f o : Ticker → Option ℚ) (l : List Ticker) :
    ∀ (k : Nat) (st : DriverState),
      (List.enumFrom k l).foldl (seqStep n f o) st =
        { prices := l.foldl (mergeStep f o) st.prices
          success := st.success + (l.filter fun s => (f s).isSome).length
          fetchLog := st.fetchLog ++ l
          sleeps := st.sleeps + ((List.range' k l.length).filter fun j => j < n - 1).length } := by
  induction l with
  | nil =>
    intro k st
    cases st
    simp [List.enumFrom]
  | cons a l ih =>
    intro k st
    rw [List.enumFrom_cons, List.foldl_cons, ih (k + 1)]
    simp only [seqStep, DriverState.mk.injEq]
    refine ⟨rfl, ?_, ?_, ?_⟩
    · rw [List.filter_cons]
      by_cases hf : (f a).isSome = true <;> simp [hf] <;> omega
    · simp
    · rw [List.length_cons, List.range'_succ, List.filter_cons]
      by_cases hk : k < n - 1 <;> simp [hk] <;> omega

/-- Closed form of the whole sequential driver: the prices are the merge,
the log lists the symbols in order, and a pacing sleep happens at every
enumerate index below the last. -/
theorem runSeq_eq (symbols : List Ticker) (f o : Ticker → Option ℚ) :
    runSeq symbols f o =
      { prices := mergeDict symbols f o
        success := (symbols.filter fun s => (f s).isSome).length
        fetchLog := symbols
        sleeps := ((List.range symbols.length).filter fun j => j < symbols.length - 1).length } := by
  unfold runSeq
  rw [List.enum_eq_enumFrom, seqFoldl_eq]
  simp [mergeDict, List.range_eq_range']

/-- Of the n enumerate indices of a run, exactly the first n - 1 are
below n - 1, so exactly n - 1 pacing sleeps happen. -/
theorem length_filter_range_lt (n : Nat) :
    ((List.range n).filter fun j => j < n - 1).length = n - 1 := by
  cases n with
  | zero => rfl
  | succ m =>
    rw [List.range_succ, List.filter_append]
    have h1 : (List.range m).filter (fun j => decide (j < m + 1 - 1)) = List.range m := by
      apply List.filter_eq_self.mpr
      intro a ha
      have := List.mem_range.mp ha
      simp only [decide_eq_true_eq]
      omega
    have h2 : List.filter (fun j => decide (j < m + 1 - 1)) [m] = [] := by simp
    rw [h1, h2]
    simp

/-- Closed form of the spec-modelled retry loop against the rate-limit
stub, from any attempt index not past the first success. -/
theorem fetchWithRetry_stub (msg : String) (limitHits : Nat) (price : ℚ)
    (hmsg : isRateLimitError msg = true) :
    ∀ (m a : Nat), a ≤ limitHits →
      fetchWithRetry (rateLimitStub msg limitHits price) m a =
        (if limitHits - a ≤ m then some price else none, min (limitHits - a) m) := by
  intro m
  induction m with
  | zero =>
    intro a ha
    by_cases hak : a < limitHits
    · rw [fetchWithRetry]
      simp only [rateLimitStub, if_pos hak, hmsg, if_true]
      rw [if_neg (by omega)]
      simp
    · have haeq : a = limitHits := by omega
      rw [fetchWithRetry]
      simp only [rateLimitStub, if_neg hak]
      rw [if_pos (by omega)]
      simp [haeq]
  | succ r ih =>
    intro a ha
    by_cases hak : a < limitHits
    · rw [fetchWithRetry]
      simp only [rateLimitStub, if_pos hak, hmsg, if_true]
      rw [ih (a + 1) (by omega)]
      refine Prod.ext ?_ ?_
      · show (if limitHits - (a + 1) ≤ r then some price else none) =
            if limitHits - a ≤ r + 1 then some price else none
        exact if_congr (by omega) rfl rfl
      · show min (limitHits - (a + 1)) r + 1 = min (limitHits - a) (r + 1)
        omega
    · have haeq : a = limitHits := by omega
      rw [fetchWithRetry]
      simp only [rateLimitStub, if_neg hak]
      rw [if_pos (by omega)]
      simp [haeq]

/-- C1: for every current symbol set, every assignment of fresh fetch
results and every prior snapshot, the merged output assigns to each
symbol in the set its fresh value when the fetch succeeded, else the
prior value when one exists, else nothing; the same rule holds
independently for the industry mapping; neither merged mapping contains
a symbol outside the set; and the prices dict built by the sequential
fetch loop of main is exactly this merge. -/
theorem merge_carry_forward (symbols : List Ticker) (freshP oldP : Ticker → Option ℚ)
    (freshI oldI : Ticker → Option String) (sym : Ticker) :
    (dictLookup (mergeDict symbols freshP oldP) sym =
       if sym ∈ symbols then (freshP sym).orElse (fun _ => oldP sym) else none) ∧
    (dictLookup (mergeDict symbols freshI oldI) sym =
       if sym ∈ symbols then (freshI sym).orElse (fun _ => oldI sym) else none) ∧
    (runSeq symbols freshP oldP).prices = mergeDict symbols freshP oldP :=
  ⟨mergeDict_lookup symbols freshP oldP sym,
   mergeDict_lookup symbols freshI oldI sym,
   by rw [runSeq_eq]⟩

/-- C2 (modelled from the spec, since the sequential-with-retry Price
Fetcher variant is not under src/): against a stub that reports a
rate-limit error exactly limitHits times and then succeeds, with
maxRetries retries allowed, the fetch succeeds iff limitHits is at most
maxRetries, and exactly min limitHits maxRetries cooldown sleeps are
performed before the outcome is reported. -/
theorem rate_limit_retry_spec (msg : String) (limitHits maxRetries : Nat) (price : ℚ)
    (hmsg : isRateLimitError msg = true) :
    ((fetchWithRetry (rateLimitStub msg limitHits price) maxRetries 0).1.isSome = true ↔
        limitHits ≤ maxRetries) ∧
    (fetchWithRetry (rateLimitStub msg limitHits price) maxRetries 0).2 =
      min limitHits maxRetries := by
  rw [fetchWithRetry_stub msg limitHits price hmsg maxRetries 0 (Nat.zero_le _)]
  constructor
  · by_cases hk : limitHits ≤ maxRetries
    · simp [Nat.sub_zero, hk]
    · rw [if_neg (by omega)]
      simp
      omega
  · show min (limitHits - 0) maxRetries = min limitHits maxRetries
    omega

/-- Witness for C2: a stub that rate-limits twice and then succeeds,
with three retries allowed, succeeds after exactly two cooldown
sleeps. -/
theorem rate_limit_retry_spec_witness :
    isRateLimitError "API rate limit exceeded" = true ∧
    (((fetchWithRetry (rateLimitStub "API rate limit exceeded" 2 500 ) 3 0).1.isSome = true ↔
        (2 : Nat) ≤ 3) ∧
      (fetchWithRetry (rateLimitStub "API rate limit exceeded" 2 500 ) 3 0).2 = min 2 3) :=
  ⟨by decide, rate_limit_retry_spec "API rate limit exceeded" 2 3 500 (by decide)⟩

/-- C3: when the resolved symbol list is empty, main exits with status 1,
writes nothing over the snapshot file, and performs no fetch. -/
theorem empty_symbols_abort (env : RunEnv)
    (h : (load_stock_list env.source).1 = []) :
    (mainRun env).exitCode = 1 ∧ (mainRun env).written = none ∧
      (mainRun env).fetchLog = [] := by
  unfold mainRun
  rw [h]
  simp

/-- Witness for C3: a run with no credentials and no fallback file
resolves no symbols and aborts without writing. -/
theorem empty_symbols_abort_witness :
    (load_stock_list c3Env.source).1 = [] ∧
    ((mainRun c3Env).exitCode = 1 ∧ (mainRun c3Env).written = none ∧
      (mainRun c3Env).fetchLog = []) :=
  ⟨rfl, empty_symbols_abort c3Env rfl⟩

/-- C4: whenever the provider returns a non-empty table of daily bars,
fetch_price reports the last close multiplied by 1000; in particular a
raw close of 12.5 is stored as 12500. -/
theorem fetch_price_scales_last_close (sym : Ticker) (closes : List ℚ) (raw : ℚ) :
    fetch_price sym (HistoryOutcome.table (closes ++ [raw])) =
      Except.ok (sym, some (raw * 1000)) ∧
    fetch_price "XYZ" (HistoryOutcome.table [(12.5 : ℚ)]) =
      Except.ok ("XYZ", some 12500) := by
  constructor
  · simp [fetch_price, fetchPriceTry, List.getLast?_concat]
  · have h125 : (12.5 : ℚ) * 1000 = 12500 := by norm_num
    simp [fetch_price, fetchPriceTry, h125]

/-- C5: for every provider behaviour, including a raised exception,
fetch_price returns normally with the queried symbol and either a price
or an explicit no-price outcome; no error reaches the caller. -/
theorem fetch_price_never_raises (sym : Ticker) (outcome : HistoryOutcome) :
    fetch_price sym outcome = Except.ok (sym, none) ∨
      ∃ p, fetch_price sym outcome = Except.ok (sym, some p) := by
  cases outcome with
  | raises msg => left; rfl
  | noneDf => left; rfl
  | table closes =>
    cases h : closes.getLast? with
    | none => left; simp [fetch_price, fetchPriceTry, h]
    | some raw => right; exact ⟨raw * 1000, by simp [fetch_price, fetchPriceTry, h]⟩

/-- C6: the sequential driver visits the symbols in list order, giving
each symbol of a duplicate-free non-empty list exactly one driver-level
fetch_price call, and sleeps after every fetch except the last, so a
list of length n causes exactly n - 1 pacing sleeps. -/
theorem sequential_driver_attempts (symbols : List Ticker) (f o : Ticker → Option ℚ)
    (hne : symbols ≠ []) (hnd : symbols.Nodup) :
    (runSeq symbols f o).fetchLog = symbols ∧
    (∀ sym ∈ symbols, (runSeq symbols f o).fetchLog.count sym = 1) ∧
    (runSeq symbols f o).sleeps = symbols.length - 1 := by
  refine ⟨by rw [runSeq_eq], ?_, ?_⟩
  · intro sym hmem
    rw [runSeq_eq]
    exact List.count_eq_one_of_mem hnd hmem
  · rw [runSeq_eq]
    exact length_filter_range_lt symbols.length

/-- Witness for C6: a three-symbol run logs the three symbols in order,
counts each once, and sleeps twice. -/
theorem sequential_driver_attempts_witness :
    (["AAA", "BBB", "CCC"] : List Ticker) ≠ [] ∧
    (["AAA", "BBB", "CCC"] : List Ticker).Nodup ∧
    ((runSeq ["AAA", "BBB", "CCC"] c6Fetch fun _ => none).fetchLog =
        ["AAA", "BBB", "CCC"] ∧
      (∀ sym ∈ (["AAA", "BBB", "CCC"] : List Ticker),
        (runSeq ["AAA", "BBB", "CCC"] c6Fetch fun _ => none).fetchLog.count sym = 1) ∧
      (runSeq ["AAA", "BBB", "CCC"] c6Fetch fun _ => none).sleeps =
        (["AAA", "BBB", "CCC"] : List Ticker).length - 1) :=
  ⟨by decide, by decide,
   sequential_driver_attempts ["AAA", "BBB", "CCC"] c6Fetch (fun _ => none)
     (by decide) (by decide)⟩

/-- C7: when either hosted-store credential is absent (falsy), the symbol
source warns and takes the static-fallback path instead of failing hard;
when the credentials are present and the query raises, it warns and
fails open to the empty list. -/
theorem load_stock_list_fails_open (env : SourceEnv) :
    ((pyTruthy env.supabaseUrl = false ∨ pyTruthy env.supabaseKey = false) →
        load_stock_list env = (env.stocksFile.getD [], [LogEvent.warnNoCreds])) ∧
    (∀ msg, pyTruthy env.supabaseUrl = true → pyTruthy env.supabaseKey = true →
        env.query = QueryOutcome.raises msg →
        load_stock_list env = ([], [LogEvent.errorQuery msg])) := by
  constructor
  · intro h
    cases hf : env.stocksFile with
    | none => rcases h with h | h <;> simp [load_stock_list, h, hf]
    | some syms => rcases h with h | h <;> simp [load_stock_list, h, hf]
  · intro msg hu hk hq
    simp [load_stock_list, hu, hk, hq]

/-- Witness for C7: with credentials absent the fallback file is served
with a warning; with credentials present and a raising query the result
is empty with an error log. -/
theorem load_stock_list_fails_open_witness :
    load_stock_list c7EnvA = (["FPT", "VNM"], [LogEvent.warnNoCreds]) ∧
    load_stock_list c7EnvB = ([], [LogEvent.errorQuery "connection refused"]) :=
  ⟨(load_stock_list_fails_open c7EnvA).1 (Or.inl rfl),
   (load_stock_list_fails_open c7EnvB).2 "connection refused" rfl rfl rfl⟩

/-- C8: a missing or malformed previous snapshot file is read as the
empty snapshot, and the whole run behaves exactly as if a valid empty
snapshot had been read; no error escapes. -/
theorem snapshot_unreadable_as_empty (env : RunEnv) :
    mainRun { env with snapshotFile := SnapshotFile.missing } =
      mainRun { env with snapshotFile := SnapshotFile.valid emptySnapshot } ∧
    mainRun { env with snapshotFile := SnapshotFile.malformed } =
      mainRun { env with snapshotFile := SnapshotFile.valid emptySnapshot } ∧
    readOldSnapshot SnapshotFile.missing = emptySnapshot ∧
    readOldSnapshot SnapshotFile.malformed = emptySnapshot :=
  ⟨rfl, rfl, rfl, rfl⟩

/-- C9: the total_symbols field of the written document equals the
number of entries of its prices mapping, whose keys are distinct, so it
counts the symbols that have a price rather than the resolved symbol
set. -/
theorem total_symbols_counts_prices (env : RunEnv) (out : Output)
    (h : (mainRun env).written = some out) :
    out.total_symbols = out.prices.length ∧ (out.prices.map Prod.fst).Nodup := by
  simp only [mainRun] at h
  cases hemp : (load_stock_list env.source).1.isEmpty with
  | true => rw [hemp] at h; simp at h
  | false =>
    rw [hemp] at h
    simp only [Bool.false_eq_true, if_false, Option.some.injEq] at h
    subst h
    constructor
    · rfl
    · show (((runSeq (load_stock_list env.source).1
          (fun s => fetchPriceVal s (env.provider s))
          (readOldSnapshot env.snapshotFile).prices).prices).map Prod.fst).Nodup
      rw [runSeq_eq]
      exact mergeDict_keys_nodup _ _ _

/-- Witness for C9: a two-symbol run in which only one symbol has a
(carried-forward) price writes total_symbols = 1 = the size of the
prices dict. -/
theorem total_symbols_counts_prices_witness :
    (mainRun c9Env).written = some c9Out ∧
    (c9Out.total_symbols = c9Out.prices.length ∧
      (c9Out.prices.map Prod.fst).Nodup) :=
  ⟨rfl, total_symbols_counts_prices c9Env c9Out rfl⟩

/-- C10: the symbol list resolved from a hosted-store query response has
no duplicates, every entry is uppercased (it is the uppercasing of some
row value and is fixed by uppercasing), rows whose ticker field is
absent, null or empty contribute nothing, and the empty string never
appears. -/
theorem hosted_query_tickers_clean (env : SourceEnv) (data : List (Option String))
    (hu : pyTruthy env.supabaseUrl = true) (hk : pyTruthy env.supabaseKey = true)
    (hq : env.query = QueryOutcome.rows data) :
    (load_stock_list env).1.Nodup ∧
    (∀ s, s ∈ (load_stock_list env).1 ↔
        ∃ r, some r ∈ data ∧ r ≠ "" ∧ s = pyUpper r) ∧
    "" ∉ (load_stock_list env).1 ∧
    (∀ s ∈ (load_stock_list env).1, pyUpper s = s) := by
  have hload : (load_stock_list env).1 = extractTickers data := by
    simp [load_stock_list, hu, hk, hq]
  rw [hload]
  refine ⟨nodup_extractTickers data, mem_extractTickers data, ?_, ?_⟩
  · intro hc
    obtain ⟨r, _, hne, hup⟩ := (mem_extractTickers data "").mp hc
    exact pyUpper_ne_empty hne hup.symm
  · intro s hs
    obtain ⟨r, _, _, rfl⟩ := (mem_extractTickers data s).mp hs
    exact pyUpper_pyUpper r

/-- Witness for C10: rows with a duplicate value, a null field, an empty
string and mixed case resolve to the two distinct uppercased tickers. -/
theorem hosted_query_tickers_clean_witness :
    pyTruthy c10Env.supabaseUrl = true ∧ pyTruthy c10Env.supabaseKey = true ∧
    c10Env.query =
      QueryOutcome.rows [some "fpt", none, some "", some "FPT", some "vnm"] ∧
    ((load_stock_list c10Env).1.Nodup ∧
      (∀ s, s ∈ (load_stock_list c10Env).1 ↔
          ∃ r, some r ∈ [some "fpt", none, some "", some "FPT", some "vnm"] ∧
            r ≠ "" ∧ s = pyUpper r) ∧
      "" ∉ (load_stock_list c10Env).1 ∧
      (∀ s ∈ (load_stock_list c10Env).1, pyUpper s = s)) :=
  ⟨rfl, rfl, rfl,
   hosted_query_tickers_clean c10Env [some "fpt", none, some "", some "FPT", some "vnm"]
     rfl rfl rfl⟩
